import Mathlib

/-!
Verification development for the rw-twincat-ignition-to-struct repository.

The Python sources are shallowly embedded as executable Lean functions over
`String` / `List Char`.  Python's Unicode-aware classes (`\w`, `str.lower`,
`str.capitalize`) are modelled on the Basic-Latin range (plus the Latin-1 /
Latin-Extended-A letters where the distinction matters, see `pyIsWord`);
inputs are expected to lie in that range.  File I/O and printing are not
modelled: every `print("Warning: ...")` of the source becomes an entry in an
explicit warning list.
-/

/-! ## Generic string helpers (Python primitives) -/

/-- Python's `pat in s` substring test. -/
def containsStr (s pat : String) : Bool := decide (pat.data <:+: s.data)

/-- Python's `s.endswith(sfx)`. -/
def endsWithStr (s sfx : String) : Bool := decide (sfx.data <:+ s.data)

/-- Python's `s.startswith(p)`. -/
def strStarts (s p : String) : Bool := decide (p.data <+: s.data)

/-- Python's `s.lower()` (ASCII range). -/
def pyLower (s : String) : String := ⟨s.data.map Char.toLower⟩

/-- Python's `s.capitalize()` (ASCII range): first char upper-cased, rest lower-cased. -/
def pyCapitalize (s : String) : String :=
  match s.data with
  | [] => ""
  | c :: rest => ⟨c.toUpper :: rest.map Char.toLower⟩

/-- Python's `s.strip()` on whitespace, both ends. -/
def trimWs (s : String) : String :=
  ⟨((s.data.dropWhile Char.isWhitespace).reverse.dropWhile Char.isWhitespace).reverse⟩

/-- Python's `s.split('_')` (keeps empty parts), on char lists. -/
def splitOnUnd : List Char → List (List Char)
  | [] => [[]]
  | '_' :: rest => [] :: splitOnUnd rest
  | c :: rest =>
    match splitOnUnd rest with
    | [] => [[c]]
    | p :: ps => (c :: p) :: ps

/-- One step of `re.sub(r'_+', '_', ·)`: collapse every run of underscores to one. -/
def collapseUnd : List Char → List Char
  | [] => []
  | [c] => [c]
  | a :: b :: rest =>
    if a == '_' && b == '_' then collapseUnd (b :: rest)
    else a :: collapseUnd (b :: rest)

/-- Drop leading underscores (left half of Python's `strip('_')`). -/
def lstripUnd (l : List Char) : List Char := l.dropWhile (· == '_')

/-- Drop trailing underscores (right half of Python's `strip('_')`). -/
def rstripUnd (l : List Char) : List Char := (l.reverse.dropWhile (· == '_')).reverse

/-- Python's `strip('_')`. -/
def stripUnd (l : List Char) : List Char := rstripUnd (lstripUnd l)

/-- `re.sub(r'\s+', ' ', ·)`: collapse every maximal whitespace run to a single space. -/
def collapseWs : List Char → List Char
  | [] => []
  | [c] => if c.isWhitespace then [' '] else [c]
  | a :: b :: rest =>
    if a.isWhitespace && b.isWhitespace then collapseWs (b :: rest)
    else (if a.isWhitespace then ' ' else a) :: collapseWs (b :: rest)

/-- Python's `s.replace('\\u003d', '=')` — unescape the literal 6-char sequence. -/
def replaceEq : List Char → List Char
  | '\\' :: 'u' :: '0' :: '0' :: '3' :: 'd' :: rest => '=' :: replaceEq rest
  | c :: rest => c :: replaceEq rest
  | [] => []

/-- Value of a digit run, most significant first (Python `int` on the matched group). -/
def digitsVal (ds : List Char) : Nat := ds.foldl (fun a c => 10 * a + (c.toNat - 48)) 0

/-! ## `ignition_to_twincat.py` — name transforms -/

/-- Python `re`'s `\w` class, restricted to the modelled alphabet: ASCII word
characters plus the Latin-1 / Latin-Extended-A letters (U+00C0–U+017F minus
the two operators U+00D7, U+00F7), which Python treats as word characters. -/
def pyIsWord (c : Char) : Bool :=
  c.isAlphanum || c == '_' ||
    (decide (0xC0 ≤ c.toNat) && decide (c.toNat ≤ 0x17F) &&
      (c.toNat != 0xD7) && (c.toNat != 0xF7))

/-- The ASCII-only word class `[a-zA-Z0-9_]`. -/
def asciiWord (c : Char) : Bool := c.isAlphanum || c == '_'

/-- `re.sub(r'[^\w]', '_', ·)` from `_sanitize_name`. -/
def replaceNonWord (l : List Char) : List Char :=
  l.map (fun c => if pyIsWord c then c else '_')

/-- `IgnitionToTwinCATConverter._sanitize_name` (lines 393–402):
replace non-word chars with `_`, collapse `_` runs, strip leading/trailing `_`. -/
def sanitize_name (name : String) : String :=
  ⟨stripUnd (collapseUnd (replaceNonWord name.data))⟩

/-- The guard of `_sanitize_variable_name` (lines 364–366): prefix `_` when a
nonempty identifier does not start with a letter or `_`. -/
def prefixIfNeeded : List Char → List Char
  | [] => []
  | c :: rest => if c.isAlpha || c == '_' then c :: rest else '_' :: c :: rest

/-- `IgnitionToTwinCATConverter._sanitize_variable_name` (lines 358–368):
replace non-`[a-zA-Z0-9_]` chars with `_`; prefix `_` when the nonempty result
does not start with a letter or `_`. -/
def sanitize_variable_name (s : String) : String :=
  ⟨prefixIfNeeded (s.data.map (fun c => if asciiWord c then c else '_'))⟩

/-- `re.sub(r'_V\d+$', '', ·)` from `_convert_to_twincat_name` (case-sensitive `V`). -/
def stripVersionSfx (s : String) : String :=
  let rev := s.data.reverse
  let digs := rev.takeWhile Char.isDigit
  let rest := rev.dropWhile Char.isDigit
  if digs.isEmpty then s
  else
    match rest with
    | 'V' :: '_' :: tl => ⟨tl.reverse⟩
    | _ => s

/-- `IgnitionToTwinCATConverter._generate_twincat_struct_name` (lines 105–124):
split on `_` dropping empty parts, capitalize each part, join, wrap. -/
def generate_twincat_struct_name (ignition_name : String) : String :=
  let step := fun (acc : List String × List Char) (c : Char) =>
    if c == '_' then
      if acc.2.isEmpty then acc else (acc.1 ++ [pyCapitalize ⟨acc.2⟩], [])
    else (acc.1, acc.2 ++ [c])
  let r := ignition_name.data.foldl step ([], [])
  let parts := if r.2.isEmpty then r.1 else r.1 ++ [pyCapitalize ⟨r.2⟩]
  "ST_" ++ String.join parts ++ "_HMI_IgnitionExp"

/-- `IgnitionToTwinCATConverter._convert_to_twincat_name` (lines 308–328):
strip a `_V<digits>` version marker, then either keep the `RW` segment and
PascalCase the rest, or strip underscores wholesale. -/
def convert_to_twincat_name (ignition_name : String) : String :=
  let name := stripVersionSfx ignition_name
  let parts := (splitOnUnd name.data).map (fun l => (⟨l⟩ : String))
  if 3 ≤ parts.length ∧ parts.headD "" = "RW" then
    "ST_RW_" ++ String.join ((parts.drop 1).map pyCapitalize) ++ "_HMI_IgnitionExp"
  else
    "ST_" ++ (⟨name.data.filter (· != '_')⟩ : String) ++ "_HMI_IgnitionExp"

/-! ## `ignition_to_twincat.py` — type mapping and tag lines -/

/-- `IgnitionToTwinCATConverter.DATA_TYPE_MAPPING` (lines 26–62), in source
order.  The source dict literal repeats the `Boolean` key with the identical
value (Python keeps the last, identical, entry); lookups here take the first. -/
def DATA_TYPE_MAPPING : List (String × String) :=
  [("Boolean", "BOOL"),
   ("Byte", "USINT"),
   ("Short", "INT"),
   ("Integer", "DINT"),
   ("Long", "LINT"),
   ("Float", "REAL"),
   ("Double", "LREAL"),
   ("String", "STRING"),
   ("DateTime", "DT"),
   ("Boolean", "BOOL"),
   ("Float4", "REAL"),
   ("Float8", "LREAL"),
   ("Int4", "DINT"),
   ("Int8", "SINT"),
   ("Int16", "INT"),
   ("Int32", "DINT"),
   ("UInt16", "UINT"),
   ("UInt32", "UDINT"),
   ("Byte Array", "ARRAY[0..255] OF USINT"),
   ("Short Array", "ARRAY[0..255] OF INT"),
   ("Integer Array", "ARRAY[0..255] OF DINT"),
   ("Long Array", "ARRAY[0..255] OF LINT"),
   ("Float Array", "ARRAY[0..255] OF REAL"),
   ("Double Array", "ARRAY[0..255] OF LREAL"),
   ("Boolean Array", "ARRAY[0..255] OF BOOL"),
   ("String Array", "ARRAY[0..255] OF STRING"),
   ("DateTime Array", "ARRAY[0..255] OF DT"),
   ("StringArray", "ARRAY[0..255] OF STRING")]

/-- `IgnitionToTwinCATConverter._map_data_type` (lines 337–344): table lookup,
unknown types pass through unchanged. -/
def map_data_type (ignition_type : String) : String :=
  (DATA_TYPE_MAPPING.lookup ignition_type).getD ignition_type

/-- The warning condition of `_map_data_type` (line 341): warn exactly when the
type passed through unchanged and is not a table key. -/
def map_data_type_warning (ignition_type : String) : Bool :=
  (map_data_type ignition_type == ignition_type) &&
    !(DATA_TYPE_MAPPING.lookup ignition_type).isSome

/-- Python's `s.replace('_', '/')` used for the folder-path comment. -/
def undToSlash (s : String) : String :=
  ⟨s.data.map (fun c => if c == '_' then '/' else c)⟩

/-- The default-initializer segment appended by `_generate_tag_line`
(lines 478–494), keyed on the mapped TwinCAT type spelling.  The array branch
and the final catch-all both append nothing, as in the source. -/
def defaultSuffix (twincat_type : String) : String :=
  if twincat_type = "BOOL" then " := FALSE"
  else if twincat_type = "REAL" ∨ twincat_type = "LREAL" then " := 0.0"
  else if twincat_type ∈ ["SINT", "INT", "DINT", "LINT", "USINT", "UINT",
      "UDINT", "ULINT", "BYTE", "WORD", "DWORD", "LWORD"] then " := 0"
  else if twincat_type = "STRING" ∨ twincat_type = "WSTRING" then " := ''"
  else if twincat_type = "DT" then " := DT#1970-01-01-00:00:00"
  else if strStarts twincat_type "ARRAY" then ""
  else ""

/-- One entry of the converter's `self.tags` list: the tag-info dict built by
`_extract_tags_with_nested_structs` / `_extract_tag_info`. -/
structure TagInfo where
  name : String
  isUdtReference : Bool := false
  twincat_type : String := ""
  dataType : String := ""
  tooltip : String := ""
  readOnly : Bool := false
  access_rights : String := ""
  folder_path : Option String := none
deriving DecidableEq

/-- `IgnitionToTwinCATConverter._generate_tag_line` (lines 455–510). -/
def generateTagLine (tag : TagInfo) : String :=
  let var_name := sanitize_variable_name tag.name
  if tag.isUdtReference then
    let v := var_name ++ " : " ++ tag.twincat_type ++ ";"
    if tag.tooltip ≠ "" then v ++ "\t\t// " ++ tag.tooltip else v
  else
    let twincat_type := map_data_type tag.dataType
    let v := var_name ++ " : " ++ twincat_type ++ defaultSuffix twincat_type ++ ";"
    let v := if tag.readOnly then v ++ "\t\t// Read-only tag" else v
    match tag.folder_path with
    | some fp =>
      if fp ≠ "" then
        if !tag.readOnly then v ++ "\t\t// Folder: " ++ undToSlash fp
        else v ++ ", " ++ trimWs ("\t\t// Folder: " ++ undToSlash fp)
      else v
    | none => v

/-! ## `ignition_to_twincat.py` — tag tree extraction -/

/-- An Ignition `tooltip` value: either a plain string or an object carrying a
`binding` field (the two shapes `_extract_tag_info` handles). -/
inductive TooltipVal
  | str (s : String)
  | obj (binding : Option String)
deriving DecidableEq

/-- One node of an Ignition tag tree: the three `tagType` kinds the converter
recognizes (`Folder`, `UdtInstance`, `AtomicTag`).  Fields that Python reads
with `.get` are `Option`s. -/
inductive Tag
  | folder (name : Option String) (tags : List Tag)
  | udtInstance (name : Option String) (typeId : Option String)
  | atomicTag (name : Option String) (dataType : Option String)
      (tooltip : Option TooltipVal) (readOnly : Bool)

/-- The tooltip normalization of `_extract_tag_info` (lines 289–304): extract
the text, strip it, and when nonempty unescape `=` and collapse runs of
whitespace. -/
def cleanTooltip (t : Option TooltipVal) : String :=
  let raw :=
    match t with
    | some (TooltipVal.str s) => trimWs s
    | some (TooltipVal.obj b) => trimWs (b.getD "")
    | none => ""
  if raw ≠ "" then ⟨collapseWs (replaceEq raw.data)⟩ else raw

/-- `IgnitionToTwinCATConverter._extract_tag_info` (lines 274–306): `none`
when the tag's `name` or `dataType` is missing or empty. -/
def extract_tag_info (nm dt : Option String) (tt : Option TooltipVal)
    (ro : Bool) : Option TagInfo :=
  match nm, dt with
  | some n, some d =>
    if n ≠ "" ∧ d ≠ "" then
      some { name := sanitize_name n, dataType := d,
             tooltip := cleanTooltip tt, readOnly := ro }
    else none
  | _, _ => none

/-- `folder_prefix.rstrip('_') if folder_prefix else None` (lines 192 and 203). -/
def folderPathOf (pfx : String) : Option String :=
  if pfx ≠ "" then some ⟨rstripUnd pfx.data⟩ else none

/-- The tag-info entry a single non-folder node contributes, if any (the
`UdtInstance` and `AtomicTag` arms of `_extract_tags_with_nested_structs`,
lines 175–204).  An unresolved `typeId` or a malformed atomic yields `none`. -/
def emitNode (mapping : List (String × String)) (pfx : String) : Tag → Option TagInfo
  | Tag.folder _ _ => none
  | Tag.udtInstance nm tid =>
    let type_id := tid.getD ""
    let tag_name := nm.getD "Unknown"
    let instance_name := sanitize_name tag_name
    let prefixed_name := pfx ++ instance_name
    match mapping.lookup type_id with
    | some tn =>
      some { name := prefixed_name, isUdtReference := true, twincat_type := tn,
             access_rights := "ReadWrite",
             tooltip := "UDT Instance: " ++ tag_name ++ " (" ++ type_id ++ ")",
             folder_path := folderPathOf pfx }
    | none => none
  | Tag.atomicTag nm dt tt ro =>
    (extract_tag_info nm dt tt ro).map (fun ti => { ti with folder_path := folderPathOf pfx })

/-- The warning a single node prints (line 196): exactly one message for an
unresolved `UdtInstance`, nothing otherwise. -/
def nodeWarnings (mapping : List (String × String)) : Tag → List String
  | Tag.udtInstance nm tid =>
    let type_id := tid.getD ""
    if (mapping.lookup type_id).isSome then []
    else ["Warning: Unknown UDT type '" ++ type_id ++ "' for instance '" ++
            nm.getD "Unknown" ++ "'"]
  | _ => []

/-- `IgnitionToTwinCATConverter._extract_tags_with_nested_structs`
(lines 158–204): walk the node list in order, recursing into folders with an
extended prefix; returns the accumulated `self.tags` together with the
warnings printed along the way. -/
def extractTagsW (mapping : List (String × String)) :
    List Tag → String → List TagInfo × List String
  | [], _ => ([], [])
  | Tag.folder nm children :: rest, pfx =>
    let folder_name := sanitize_name (nm.getD "Unknown")
    let r1 := extractTagsW mapping children (pfx ++ folder_name ++ "_")
    let r2 := extractTagsW mapping rest pfx
    (r1.1 ++ r2.1, r1.2 ++ r2.2)
  | t :: rest, pfx =>
    let r := extractTagsW mapping rest pfx
    ((emitNode mapping pfx t).toList ++ r.1, nodeWarnings mapping t ++ r.2)

/-- Specification-side pre-order traversal: the depth-first, left-to-right
sequence of non-folder nodes, each paired with the folder prefix in force
where it occurs; folders contribute no entry, their children appear in place. -/
def preorderNodes : List Tag → String → List (String × Tag)
  | [], _ => []
  | Tag.folder nm children :: rest, pfx =>
    preorderNodes children (pfx ++ sanitize_name (nm.getD "Unknown") ++ "_") ++
      preorderNodes rest pfx
  | t :: rest, pfx => (pfx, t) :: preorderNodes rest pfx

/-! ## `extract_udts_from_big_json.py` — version disambiguation -/

/-- Match of `re.search(r'_v(\d+)$', ·)` against an (already lower-cased)
char list: the version number when the list ends in `_v` followed by one or
more digits. -/
def vSuffixNum (l : List Char) : Option Nat :=
  if (l.reverse.takeWhile Char.isDigit).isEmpty then none
  else if (l.reverse.dropWhile Char.isDigit).take 2 = ['v', '_'] then
    some (digitsVal (l.reverse.takeWhile Char.isDigit).reverse)
  else none

/-- `get_version_priority` (lines 14–39 of `extract_udts_from_big_json.py`). -/
def get_version_priority (udt_name : String) : Nat :=
  if containsStr (pyLower udt_name) "test" then 0
  else
    match vSuffixNum (pyLower udt_name).data with
    | some n => 1000 + n
    | none =>
      if endsWithStr (pyLower udt_name) "_new" then 100
      else if endsWithStr (pyLower udt_name) "_reverse" then 90
      else if endsWithStr (pyLower udt_name) "_hybrid" then 80
      else 50

/-- `re.sub(sfx + '$', '', s, flags=IGNORECASE)` for a literal suffix `sfx`
(given lower-cased): drop the matched tail, keeping the remainder's case. -/
def stripEndCI (sfx : String) (s : String) : String :=
  if endsWithStr (pyLower s) sfx then ⟨s.data.take (s.data.length - sfx.data.length)⟩
  else s

/-- `re.sub(r'_V\d+$', '', s, flags=IGNORECASE)`. -/
def stripVSfxCI (s : String) : String :=
  let rev := s.data.reverse
  let digs := rev.takeWhile Char.isDigit
  let rest := rev.dropWhile Char.isDigit
  if digs.isEmpty then s
  else
    match rest with
    | c :: '_' :: tl => if c.toLower = 'v' then ⟨tl.reverse⟩ else s
    | _ => s

/-- Case-insensitively match a (reversed, lower-cased) pattern against the
front of a reversed char list, returning the remainder on success. -/
def matchRevCI : List Char → List Char → Option (List Char)
  | [], l => some l
  | _ :: _, [] => none
  | p :: ps, c :: cs => if c.toLower = p then matchRevCI ps cs else none

/-- `re.sub(r'_Hybrid\s+TEST$', '', s, flags=IGNORECASE)`: strip a trailing
`_Hybrid`, one or more whitespace characters, then `TEST`. -/
def stripHybridSpaceTest (s : String) : String :=
  let rev := s.data.reverse
  match matchRevCI "tset".data rev with
  | none => s
  | some r1 =>
    let ws := r1.takeWhile Char.isWhitespace
    let r2 := r1.dropWhile Char.isWhitespace
    if ws.isEmpty then s
    else
      match matchRevCI "dirbyh_".data r2 with
      | none => s
      | some tl => ⟨tl.reverse⟩

/-- `get_base_name` (lines 41–62): strip the known revision-marker suffixes in
the source's fixed order, each applied to the previous result. -/
def get_base_name (udt_name : String) : String :=
  let b := stripHybridSpaceTest udt_name
  let b := stripEndCI "_hybrid_test" b
  let b := stripEndCI "_hybrid_new" b
  let b := stripEndCI "_hybrid_reverse" b
  let b := stripVSfxCI b
  let b := stripEndCI "_test" b
  let b := stripEndCI "_new" b
  let b := stripEndCI "_reverse" b
  let b := stripEndCI "_hybrid" b
  b

/-- Append a name to its base-name group, keeping group insertion order
(`defaultdict(list)` in lines 98–123). -/
def addToGroup (gs : List (String × List String)) (base nm : String) :
    List (String × List String) :=
  match gs with
  | [] => [(base, [nm])]
  | (b, ms) :: rest =>
    if b = base then (b, ms ++ [nm]) :: rest else (b, ms) :: addToGroup rest base nm

/-- The grouping loop of `extract_udts_from_big_json` (lines 100–123): skip
names lacking the `RW_` marker, group the rest by derived base name. -/
def buildGroups (names : List String) : List (String × List String) :=
  names.foldl
    (fun gs nm => if strStarts nm "RW_" then addToGroup gs (get_base_name nm) nm else gs)
    []

/-- Python tuple comparison `(p₁, n₁) > (p₂, n₂)` used as the `max` key. -/
def tupleGt (a b : Nat × String) : Bool :=
  decide (b.1 < a.1) || (decide (a.1 = b.1) && decide (b.2 < a.2))

/-- Python's `max(xs, key=...)`: first element attaining the maximal key. -/
def pyMaxBy (key : String → Nat × String) : List String → Option String
  | [] => none
  | x :: xs => some (xs.foldl (fun b y => if tupleGt (key y) (key b) then y else b) x)

/-- Per-group winner selection (line 129): highest `(priority, name)` tuple. -/
def selectFromGroup (ms : List String) : Option String :=
  pyMaxBy (fun nm => (get_version_priority nm, nm)) ms

/-! ## `convert_kepware_to_beckhoff.py` -/

/-- A parameter value: the `{"dataType": ..., "value": ...}` objects the
converter reads and writes. -/
structure ParamVal where
  dataType : String
  value : String
deriving DecidableEq

/-- An `opcItemPath` value: a bare string, or an object with an optional
`binding` field (the shape `_convert_opc_item_path` inspects). -/
inductive OpcVal
  | strV (s : String)
  | objV (binding : Option String)
deriving DecidableEq

/-- An `opcServer` value: a hardcoded string or a binding object. -/
inductive OpcServerVal
  | strV (s : String)
  | objV (bindType binding : String)
deriving DecidableEq

/-- One tag of a KEPware-format UDT record; fields Python reads with `.get`
or tests with `in` are `Option`s. -/
structure KTag where
  name : Option String := none
  valueSource : Option String := none
  dataType : Option String := none
  expression : Option String := none
  opcItemPath : Option OpcVal := none
  opcServer : Option OpcServerVal := none
deriving DecidableEq

/-- The injected `OPCTagPath` template parameter (lines 98–101). -/
def tmplOPCTagPath : ParamVal :=
  { dataType := "String",
    value := "nsu=urn:BeckhoffAutomation:Ua:PLC1;s=MAIN.YourTagNameHere" }

/-- The injected `OPCServer` template parameter (lines 103–106). -/
def tmplOPCServer : ParamVal :=
  { dataType := "String", value := "Beckhoff@YourComputerName" }

/-- The KEPware-specific parameter names dropped by the remap (line 109). -/
def kepware_params : List String := ["Node", "TIA_PLC_Name", "Datablock_Name"]

/-- Python dict assignment `d[k] = v` on an insertion-ordered association
list: overwrite in place when the key exists, else append. -/
def dictInsert (k : String) (v : ParamVal) :
    List (String × ParamVal) → List (String × ParamVal)
  | [] => [(k, v)]
  | (k2, v2) :: rest =>
    if k2 = k then (k, v) :: rest else (k2, v2) :: dictInsert k v rest

/-- `KEPwareToBeckhoffConverter._convert_parameters` (lines 89–116) on the
parameter map: inject the two template parameters first, then copy over every
input parameter whose name is not KEPware-specific. -/
def convert_parameters (params : List (String × ParamVal)) :
    List (String × ParamVal) :=
  let new_parameters := [("OPCTagPath", tmplOPCTagPath), ("OPCServer", tmplOPCServer)]
  params.foldl
    (fun acc kv =>
      if kv.1 ∈ kepware_params then acc else dictInsert kv.1 kv.2 acc)
    new_parameters

/-- `KEPwareToBeckhoffConverter._should_convert_tag` (lines 143–169). -/
def should_convert_tag (tag : KTag) : Bool :=
  let value_source := tag.valueSource.getD ""
  let has_opc_item_path := tag.opcItemPath.isSome
  if value_source = "opc" then true
  else if value_source = "expr" then has_opc_item_path
  else if value_source = "memory" then false
  else has_opc_item_path

/-- Helper for `stripBraceSpans`: the second argument holds, reversed, the
text consumed since an as-yet-unclosed `\x7b`.  A `\x7d` closes and drops the
span; a newline or the end of input flushes the pending text unchanged
(`.` in the pattern does not cross newlines, so no match can start there). -/
def stripBraceAux : List Char → Option (List Char) → List Char
  | [], none => []
  | [], some buf => buf.reverse
  | c :: rest, none =>
    if c == '\x7b' then stripBraceAux rest (some [c])
    else c :: stripBraceAux rest none
  | c :: rest, some buf =>
    if c == '\x7d' then stripBraceAux rest none
    else if c == '\n' then buf.reverse ++ '\n' :: stripBraceAux rest none
    else stripBraceAux rest (some (c :: buf))

/-- `re.sub(r'\{.*?\}', '', ·)`: drop every brace-delimited span (non-greedy);
an unclosed `\x7b` is kept. -/
def stripBraceSpans (l : List Char) : List Char := stripBraceAux l none

/-- Python's `s.split('.')` (keeps empty parts), on char lists. -/
def splitOnDot : List Char → List (List Char)
  | [] => [[]]
  | '.' :: rest => [] :: splitOnDot rest
  | c :: rest =>
    match splitOnDot rest with
    | [] => [[c]]
    | p :: ps => (c :: p) :: ps

/-- `KEPwareToBeckhoffConverter._convert_opc_item_path` (lines 171–197):
rewrite a KEPware binding to the `{OPCTagPath}`-based Beckhoff form, keeping
the last dot-separated component with placeholder spans stripped, or falling
back to the tag's name.  (`split('.')` never returns an empty list, so the
source's `len(path_parts) > 0` guard is always taken.) -/
def convert_opc_item_path (tag : KTag) (tag_name : String) : KTag :=
  match tag.opcItemPath with
  | some (OpcVal.objV (some binding)) =>
    if containsStr binding "KEPServerEX" || containsStr binding "{Node}" then
      let path_parts := splitOnDot binding.data
      let tag_sfx := stripBraceSpans (path_parts.getLastD [])
      let new_binding :=
        if tag_sfx.isEmpty then "{OPCTagPath}.hmiIgnition." ++ tag_name
        else "{OPCTagPath}.hmiIgnition." ++ (⟨tag_sfx⟩ : String)
      { tag with opcItemPath := some (OpcVal.objV (some new_binding)) }
    else tag
  | _ => tag

/-- `KEPwareToBeckhoffConverter._convert_boolean_tag` (lines 199–210): a
computed-expression tag whose expression does bit extraction (`&` together
with the `{[.]S_HMISts}` status reference) becomes a direct OPC tag with the
expression removed. -/
def convert_boolean_tag (tag : KTag) : KTag :=
  if tag.valueSource = some "expr" then
    match tag.expression with
    | some e =>
      if containsStr e "&" && containsStr e "{[.]S_HMISts}" then
        { tag with valueSource := some "opc", expression := none }
      else tag
    | none => tag
  else tag

/-- `KEPwareToBeckhoffConverter._convert_opc_server` (lines 212–220): replace
a hardcoded server string by the `{OPCServer}` parameter binding. -/
def convert_opc_server (tag : KTag) : KTag :=
  match tag.opcServer with
  | some (OpcServerVal.strV _) =>
    { tag with opcServer := some (OpcServerVal.objV "parameter" "{OPCServer}") }
  | _ => tag

/-- First conversion of the `_convert_tags` loop body (lines 129–130): the
`opcItemPath` rewrite, guarded by `'opcItemPath' in tag`. -/
def convStep1 (tag : KTag) (tag_name : String) : KTag :=
  if tag.opcItemPath.isSome then convert_opc_item_path tag tag_name else tag

/-- Second conversion of the loop body (lines 133–134): the Boolean
expression rewrite, guarded by `dataType == 'Boolean' and 'expression' in tag`. -/
def convStep2 (tag : KTag) : KTag :=
  if tag.dataType = some "Boolean" ∧ tag.expression.isSome then convert_boolean_tag tag
  else tag

/-- Third conversion of the loop body (lines 137–138): the `opcServer`
rewrite, guarded by `'opcServer' in tag and isinstance(tag['opcServer'], str)`. -/
def convStep3 (tag : KTag) : KTag :=
  match tag.opcServer with
  | some (OpcServerVal.strV _) => convert_opc_server tag
  | _ => tag

/-- The body of the `_convert_tags` loop (lines 118–141) for the tag at
index `i`: apply the three per-tag conversions when the tag should convert,
leave it untouched otherwise. -/
def convert_one_tag (i : Nat) (tag : KTag) : KTag :=
  if should_convert_tag tag then
    convStep3 (convStep2 (convStep1 tag (tag.name.getD ("Tag_" ++ toString i))))
  else tag

/-- `KEPwareToBeckhoffConverter._convert_tags` (lines 118–141). -/
def convert_tags (tags : List KTag) : List KTag :=
  tags.enum.map (fun it => convert_one_tag it.1 it.2)

/-! ## Specification-side definitions (taken from the claims' wording, for
refinement comparisons; not translated from the source) -/

/-- The identifier sanitization described by the spec's 4.2 contract: replace
every character outside `[A-Za-z0-9_]` with `_`, collapse runs of `_`, trim
leading and trailing `_`, and prefix `_` when the (nonempty) result does not
start with a letter or `_`. -/
def claimSanitize (s : String) : String :=
  ⟨prefixIfNeeded (stripUnd (collapseUnd
      (s.data.map (fun c => if asciiWord c then c else '_'))))⟩

/-- The source-type spellings the spec calls "the 32/64-bit floating types". -/
def sourceFloatTypes : List String := ["Float", "Double", "Float4", "Float8"]

/-- The source-type spellings the spec calls "the integer types". -/
def sourceIntTypes : List String :=
  ["Byte", "Short", "Integer", "Long", "Int4", "Int8", "Int16", "Int32",
   "UInt16", "UInt32"]

/-- The default initializer the spec's 4.7 contract assigns to a given source
(Ignition) type: a literal for every mapped scalar type, none for array types
and unmapped/unknown types. -/
def specDefaultLiteral (src : String) : Option String :=
  if src = "Boolean" then some " := FALSE"
  else if src ∈ sourceFloatTypes then some " := 0.0"
  else if src ∈ sourceIntTypes then some " := 0"
  else if src = "String" then some " := ''"
  else if src = "DateTime" then some " := DT#1970-01-01-00:00:00"
  else none

/-- The TwinCAT scalar spellings for which `_generate_tag_line` appends a
default initializer. -/
def targetScalarSpellings : List String :=
  ["BOOL", "REAL", "LREAL", "SINT", "INT", "DINT", "LINT", "USINT", "UINT",
   "UDINT", "ULINT", "BYTE", "WORD", "DWORD", "LWORD", "STRING", "WSTRING", "DT"]

/-- Absence of adjacent double underscores (the shape invariant behind the
collapse step's idempotence). -/
def noDoubleUnd (l : List Char) : Prop := ¬ (['_', '_'] <:+: l)

/-- The nested-folder example tree `Folder("A") -> [Folder("B") -> [Atomic("x")]]`. -/
def exampleTreeAB : List Tag :=
  [Tag.folder (some "A") [Tag.folder (some "B")
      [Tag.atomicTag (some "x") (some "Boolean") none false]]]

/-- The single tag-info entry the example tree produces. -/
def exampleTagX : TagInfo :=
  { name := "x", dataType := "Boolean", folder_path := some "A_B" }

/-- A boolean computed-expression tag whose expression contains both
bit-extraction tokens but which carries no `opcItemPath` address binding. -/
def c5NoPathTag : KTag :=
  { name := some "Sts_Auto", dataType := some "Boolean", valueSource := some "expr",
    expression := some "x & {[.]S_HMISts}" }

/-! ## Helper lemmas: infix/sublist toolkit -/

theorem myInfixTrans {α : Type} {a b c : List α} (h1 : a <:+: b) (h2 : b <:+: c) :
    a <:+: c := by
  obtain ⟨s, t, rfl⟩ := h1
  obtain ⟨u, v, rfl⟩ := h2
  exact ⟨u ++ s, t ++ v, by simp⟩

theorem myInfixLength {α : Type} {a b : List α} (h : a <:+: b) :
    a.length ≤ b.length := by
  obtain ⟨s, t, rfl⟩ := h
  simp
  omega

theorem myInfixConsIff {α : Type} {l : List α} {a : α} {m : List α} :
    l <:+: a :: m ↔ l <+: a :: m ∨ l <:+: m := by
  constructor
  · rintro ⟨s, t, h⟩
    cases s with
    | nil => exact Or.inl ⟨t, by simpa using h⟩
    | cons x s2 =>
      refine Or.inr ⟨s2, t, ?_⟩
      have := congrArg List.tail h
      simpa using this
  · rintro (⟨t, ht⟩ | ⟨s, t, ht⟩)
    · exact ⟨[], t, by simpa using ht⟩
    · exact ⟨a :: s, t, by simp [ht]⟩

theorem mySuffixInfix {α : Type} {x y : List α} (h : x <:+ y) : x <:+: y := by
  obtain ⟨s, rfl⟩ := h
  exact ⟨s, [], by simp⟩

theorem myPreInfix {α : Type} {x y : List α} (h : x <+: y) : x <:+: y := by
  obtain ⟨t, rfl⟩ := h
  exact ⟨[], t, by simp⟩

theorem myRevPre {α : Type} {x y : List α} (h : x <:+ y) :
    x.reverse <+: y.reverse := by
  obtain ⟨s, rfl⟩ := h
  exact ⟨s.reverse, by simp⟩

/-! ## Helper lemmas: underscore collapse / strip -/

theorem mem_of_mem_collapseUnd : ∀ {l : List Char} {c : Char},
    c ∈ collapseUnd l → c ∈ l := by
  intro l
  induction l with
  | nil => intro c h; simp [collapseUnd] at h
  | cons a rest ih =>
    cases rest with
    | nil => intro c h; simpa [collapseUnd] using h
    | cons b r =>
      intro c h
      simp only [collapseUnd] at h
      split at h
      · exact List.mem_cons_of_mem a (ih h)
      · rcases List.mem_cons.mp h with rfl | h2
        · exact List.mem_cons_self _ _
        · exact List.mem_cons_of_mem a (ih h2)

theorem mem_of_mem_lstripUnd {l : List Char} {c : Char} (h : c ∈ lstripUnd l) :
    c ∈ l := by
  have hs : lstripUnd l <:+ l := List.dropWhile_suffix _
  obtain ⟨s, hseq⟩ := hs
  exact hseq ▸ List.mem_append_right s h

theorem mem_of_mem_rstripUnd {l : List Char} {c : Char} (h : c ∈ rstripUnd l) :
    c ∈ l := by
  unfold rstripUnd at h
  rw [List.mem_reverse] at h
  have hs : l.reverse.dropWhile (· == '_') <:+ l.reverse := List.dropWhile_suffix _
  obtain ⟨s, hsr⟩ := hs
  have : c ∈ l.reverse := by rw [← hsr]; exact List.mem_append_right s h
  rwa [List.mem_reverse] at this

theorem mem_of_mem_stripUnd {l : List Char} {c : Char} (h : c ∈ stripUnd l) :
    c ∈ l :=
  mem_of_mem_lstripUnd (mem_of_mem_rstripUnd h)

theorem collapseUnd_cons_head : ∀ (rest : List Char) (b : Char),
    ∃ tl, collapseUnd (b :: rest) = b :: tl := by
  intro rest
  induction rest with
  | nil => exact fun b => ⟨[], rfl⟩
  | cons c r ih =>
    intro b
    simp only [collapseUnd]
    split
    · next h =>
      obtain ⟨tl, htl⟩ := ih c
      have hb : b = '_' ∧ c = '_' := by
        simpa [Bool.and_eq_true, beq_iff_eq] using h
      exact ⟨tl, by rw [htl, hb.1, hb.2]⟩
    · exact ⟨_, rfl⟩

theorem noDoubleUnd_of_infix {l m : List Char} (h : m <:+: l)
    (hl : noDoubleUnd l) : noDoubleUnd m :=
  fun hin => hl (myInfixTrans hin h)

theorem collapseUnd_noDouble : ∀ l : List Char, noDoubleUnd (collapseUnd l) := by
  intro l
  induction l with
  | nil =>
    intro h
    have := myInfixLength h
    simp [collapseUnd] at this
  | cons a rest ih =>
    cases rest with
    | nil =>
      intro h
      have := myInfixLength h
      simp [collapseUnd] at this
    | cons b r =>
      simp only [collapseUnd]
      split
      · exact ih
      · next hcond =>
        obtain ⟨tl, htl⟩ := collapseUnd_cons_head r b
        rw [htl]
        intro hin
        rcases myInfixConsIff.mp hin with hp | hi
        · rw [List.cons_prefix_cons] at hp
          obtain ⟨ha, hp2⟩ := hp
          rw [List.cons_prefix_cons] at hp2
          obtain ⟨hb, _⟩ := hp2
          exact hcond (by simp [← ha, ← hb])
        · exact ih (htl ▸ hi)

theorem collapseUnd_of_noDouble : ∀ {l : List Char}, noDoubleUnd l →
    collapseUnd l = l := by
  intro l
  induction l with
  | nil => intro _; rfl
  | cons a rest ih =>
    cases rest with
    | nil => intro _; rfl
    | cons b r =>
      intro h
      simp only [collapseUnd]
      have hcond : ¬ (a == '_' && b == '_') = true := by
        intro hc
        have hab : a = '_' ∧ b = '_' := by
          simpa [Bool.and_eq_true, beq_iff_eq] using hc
        exact h ⟨[], r, by simp [hab.1, hab.2]⟩
      rw [if_neg hcond]
      have htail : noDoubleUnd (b :: r) :=
        noDoubleUnd_of_infix (mySuffixInfix (List.suffix_cons a (b :: r))) h
      rw [ih htail]

theorem stripUnd_within (l : List Char) : stripUnd l <:+: l := by
  have h1 : rstripUnd (lstripUnd l) <+: lstripUnd l := by
    unfold rstripUnd
    have h := List.dropWhile_suffix (l := (lstripUnd l).reverse) (p := (· == '_'))
    have h2 := myRevPre h
    simpa using h2
  have h2 : lstripUnd l <:+ l := List.dropWhile_suffix _
  exact myInfixTrans (myPreInfix h1) (mySuffixInfix h2)

theorem dropWhile_idem (p : Char → Bool) (l : List Char) :
    (l.dropWhile p).dropWhile p = l.dropWhile p := by
  induction l with
  | nil => rfl
  | cons a rest ih =>
    by_cases h : p a = true
    · simp [List.dropWhile_cons, h, ih]
    · simp [List.dropWhile_cons, h]

theorem dropWhile_eq_self_of_pre {p : Char → Bool} :
    ∀ {l m : List Char}, l.dropWhile p = l → m <+: l → m.dropWhile p = m := by
  intro l m hl hm
  cases m with
  | nil => rfl
  | cons c m2 =>
    obtain ⟨t, ht⟩ := hm
    have hc : p c = false := by
      by_contra hpc
      have hpc2 : p c = true := by
        cases hpceq : p c
        · exact absurd hpceq hpc
        · rfl
      rw [← ht] at hl
      rw [List.cons_append, List.dropWhile_cons, if_pos hpc2] at hl
      have hthis : (List.dropWhile p (m2 ++ t)).length = (m2 ++ t).length + 1 := by
        rw [hl]
        simp [List.length_cons]
      have hlen := List.Sublist.length_le (List.dropWhile_sublist (l := m2 ++ t) p)
      omega
    simp [List.dropWhile_cons, hc]

theorem rstripUnd_idem (l : List Char) : rstripUnd (rstripUnd l) = rstripUnd l := by
  unfold rstripUnd
  rw [List.reverse_reverse, dropWhile_idem]

theorem stripUnd_idem (l : List Char) : stripUnd (stripUnd l) = stripUnd l := by
  unfold stripUnd
  have h1 : lstripUnd (rstripUnd (lstripUnd l)) = rstripUnd (lstripUnd l) := by
    have hls : lstripUnd (lstripUnd l) = lstripUnd l := dropWhile_idem _ _
    have hpre : rstripUnd (lstripUnd l) <+: lstripUnd l := by
      unfold rstripUnd
      have h := List.dropWhile_suffix (l := (lstripUnd l).reverse) (p := (· == '_'))
      have h2 := myRevPre h
      simpa using h2
    exact dropWhile_eq_self_of_pre hls hpre
  rw [h1, rstripUnd_idem]

/-! ## Helper lemmas: word classes and sanitization -/

theorem pyIsWord_of_ascii {c : Char} (h : c.toNat ≤ 127) :
    pyIsWord c = asciiWord c := by
  unfold pyIsWord asciiWord
  have h1 : decide (0xC0 ≤ c.toNat) = false := by
    simp
    omega
  rw [h1]
  simp

theorem mem_replaceAscii {l : List Char} {c : Char}
    (h : c ∈ l.map (fun c => if asciiWord c then c else '_')) :
    asciiWord c = true := by
  obtain ⟨d, _, hd⟩ := List.mem_map.mp h
  by_cases hw : asciiWord d = true
  · rw [if_pos hw] at hd
    rw [← hd]
    exact hw
  · rw [if_neg hw] at hd
    rw [← hd]
    decide

theorem mem_replaceNonWord_word {l : List Char} {c : Char}
    (h : c ∈ replaceNonWord l) : pyIsWord c = true := by
  obtain ⟨d, _, hd⟩ := List.mem_map.mp h
  by_cases hw : pyIsWord d = true
  · rw [if_pos hw] at hd
    rw [← hd]
    exact hw
  · rw [if_neg hw] at hd
    rw [← hd]
    decide

theorem map_ascii_id {l : List Char} (h : ∀ c ∈ l, asciiWord c = true) :
    l.map (fun c => if asciiWord c then c else '_') = l := by
  have := List.map_congr_left (f := fun c => if asciiWord c then c else '_')
    (g := id) (l := l) (fun a ha => by simp [h a ha])
  rw [this, List.map_id]

theorem replaceNonWord_id {l : List Char} (h : ∀ c ∈ l, pyIsWord c = true) :
    replaceNonWord l = l := by
  unfold replaceNonWord
  have := List.map_congr_left (f := fun c => if pyIsWord c then c else '_')
    (g := id) (l := l) (fun a ha => by simp [h a ha])
  rw [this, List.map_id]

/-! ## Helper lemmas: version-suffix matching -/

theorem takeWhile_append_all {p : Char → Bool} :
    ∀ (l1 l2 : List Char), (∀ c ∈ l1, p c = true) →
      (l1 ++ l2).takeWhile p = l1 ++ l2.takeWhile p := by
  intro l1
  induction l1 with
  | nil => intro l2 _; rfl
  | cons a r ih =>
    intro l2 h
    rw [List.cons_append, List.takeWhile_cons, if_pos (h a (List.mem_cons_self a r)),
      ih l2 (fun c hc => h c (List.mem_cons_of_mem a hc)), List.cons_append]

theorem dropWhile_append_all {p : Char → Bool} :
    ∀ (l1 l2 : List Char), (∀ c ∈ l1, p c = true) →
      (l1 ++ l2).dropWhile p = l2.dropWhile p := by
  intro l1
  induction l1 with
  | nil => intro l2 _; rfl
  | cons a r ih =>
    intro l2 h
    rw [List.cons_append, List.dropWhile_cons, if_pos (h a (List.mem_cons_self a r)),
      ih l2 (fun c hc => h c (List.mem_cons_of_mem a hc))]

theorem vSuffixNum_iff (l : List Char) (n : Nat) :
    vSuffixNum l = some n ↔
      ∃ t ds, ds ≠ [] ∧ (∀ c ∈ ds, c.isDigit = true) ∧
        l = t ++ '_' :: 'v' :: ds ∧ n = digitsVal ds := by
  constructor
  · intro h
    unfold vSuffixNum at h
    split at h
    · exact absurd h (by simp)
    · next hne =>
      split at h
      · next htake =>
        injection h with h
        have hsplit := List.takeWhile_append_dropWhile (p := Char.isDigit) (l := l.reverse)
        have hrest : l.reverse.dropWhile Char.isDigit =
            'v' :: '_' :: (l.reverse.dropWhile Char.isDigit).drop 2 := by
          conv_lhs => rw [← List.take_append_drop 2 (l.reverse.dropWhile Char.isDigit)]
          rw [htake]
          rfl
        refine ⟨((l.reverse.dropWhile Char.isDigit).drop 2).reverse,
          (l.reverse.takeWhile Char.isDigit).reverse, ?_, ?_, ?_, ?_⟩
        · simp only [ne_eq, List.reverse_eq_nil_iff]
          intro hnil
          rw [hnil] at hne
          simp at hne
        · intro c hc
          rw [List.mem_reverse] at hc
          exact List.mem_takeWhile_imp hc
        · rw [hrest] at hsplit
          have h2 := congrArg List.reverse hsplit
          rw [List.reverse_reverse] at h2
          conv_lhs => rw [← h2]
          simp [List.reverse_append]
        · rw [← h]
      · exact absurd h (by simp)
  · rintro ⟨t, ds, hne, hdig, rfl, rfl⟩
    have hdigrev : ∀ c ∈ ds.reverse, Char.isDigit c = true := by
      intro c hc
      rw [List.mem_reverse] at hc
      exact hdig c hc
    have hrev : (t ++ '_' :: 'v' :: ds).reverse =
        ds.reverse ++ 'v' :: '_' :: t.reverse := by
      simp [List.reverse_append]
    have htw : ((t ++ '_' :: 'v' :: ds).reverse).takeWhile Char.isDigit = ds.reverse := by
      rw [hrev, takeWhile_append_all _ _ hdigrev, List.takeWhile_cons,
        if_neg (by decide), List.append_nil]
    have hdw : ((t ++ '_' :: 'v' :: ds).reverse).dropWhile Char.isDigit =
        'v' :: '_' :: t.reverse := by
      rw [hrev, dropWhile_append_all _ _ hdigrev, List.dropWhile_cons,
        if_neg (by decide)]
    unfold vSuffixNum
    rw [htw, hdw]
    rw [if_neg (by simpa using hne)]
    simp

/-! ## Helper lemmas: kepware tag conversion -/

theorem convert_opc_item_path_fields (t : KTag) (nm : String) :
    (convert_opc_item_path t nm).valueSource = t.valueSource ∧
    (convert_opc_item_path t nm).dataType = t.dataType ∧
    (convert_opc_item_path t nm).expression = t.expression ∧
    (convert_opc_item_path t nm).opcServer = t.opcServer := by
  unfold convert_opc_item_path
  rcases hP : t.opcItemPath with _ | v
  · simp
  · rcases v with s | b
    · simp
    · rcases b with _ | binding
      · simp
      · split
        · rename_i b2 heq
          have hb : binding = b2 := by
            injection heq with h1
            injection h1 with h2
            injection h2 with h3
          subst hb
          split <;> simp
        · rename_i hne
          exact (hne binding rfl).elim

theorem convert_opc_server_fields (t : KTag) :
    (convert_opc_server t).valueSource = t.valueSource ∧
    (convert_opc_server t).expression = t.expression := by
  unfold convert_opc_server
  rcases hS : t.opcServer with _ | v
  · simp
  · rcases v with s | bt
    · simp
    · simp

theorem convStep3_fields (x : KTag) :
    (convStep3 x).valueSource = x.valueSource ∧
    (convStep3 x).expression = x.expression := by
  unfold convStep3
  split
  · exact convert_opc_server_fields x
  · exact ⟨rfl, rfl⟩

/-! ## Helper lemmas: extraction as a pre-order flatten -/

theorem extract_fst_eq_filterMap (m : List (String × String)) :
    ∀ (tags : List Tag) (pfx : String),
      (extractTagsW m tags pfx).1 =
        (preorderNodes tags pfx).filterMap (fun pt => emitNode m pt.1 pt.2) := by
  have key : ∀ (n : Nat) (tags : List Tag), sizeOf tags < n → ∀ (pfx : String),
      (extractTagsW m tags pfx).1 =
        (preorderNodes tags pfx).filterMap (fun pt => emitNode m pt.1 pt.2) := by
    intro n
    induction n with
    | zero => exact fun tags h => absurd h (Nat.not_lt_zero _)
    | succ k ih =>
      intro tags h pfx
      cases tags with
      | nil => simp [extractTagsW, preorderNodes]
      | cons t rest =>
        cases t with
        | folder nm children =>
          have hc : sizeOf children < k := by
            simp only [List.cons.sizeOf_spec, Tag.folder.sizeOf_spec] at h
            omega
          have hr : sizeOf rest < k := by
            simp only [List.cons.sizeOf_spec, Tag.folder.sizeOf_spec] at h
            omega
          simp only [extractTagsW, preorderNodes]
          rw [List.filterMap_append, ih children hc _, ih rest hr pfx]
        | udtInstance nm tid =>
          have hr : sizeOf rest < k := by
            simp only [List.cons.sizeOf_spec, Tag.udtInstance.sizeOf_spec] at h
            omega
          simp only [extractTagsW, preorderNodes, List.filterMap_cons]
          rw [ih rest hr pfx]
          cases hE : emitNode m pfx (Tag.udtInstance nm tid) <;> simp [hE]
        | atomicTag nm dt tt ro =>
          have hr : sizeOf rest < k := by
            simp only [List.cons.sizeOf_spec, Tag.atomicTag.sizeOf_spec] at h
            omega
          simp only [extractTagsW, preorderNodes, List.filterMap_cons]
          rw [ih rest hr pfx]
          cases hE : emitNode m pfx (Tag.atomicTag nm dt tt ro) <;> simp [hE]
  exact fun tags pfx => key (sizeOf tags + 1) tags (Nat.lt_succ_self _) pfx

/-! ## Claim theorems -/

/-- C1: the Reference Resolver's pre-scan computes target struct names with
`_generate_twincat_struct_name`, while emission uses `_convert_to_twincat_name`;
the spec (and the source's own comment at line 95) say they implement the same
transform, but on the record name `RW_Analog_In` the pre-scan stores
`ST_RwAnalogIn_HMI_IgnitionExp` whereas the emitter produces
`ST_RW_AnalogIn_HMI_IgnitionExp`, so typed-instance references built from the
mapping name a struct that is never emitted. -/
theorem c1_prescan_vs_emitter_names_differ :
    generate_twincat_struct_name "RW_Analog_In" = "ST_RwAnalogIn_HMI_IgnitionExp" ∧
    convert_to_twincat_name "RW_Analog_In" = "ST_RW_AnalogIn_HMI_IgnitionExp" ∧
    generate_twincat_struct_name "RW_Analog_In" ≠
      convert_to_twincat_name "RW_Analog_In" :=
  ⟨rfl, rfl, by decide⟩

/-- C6 (counterexample): the sanitization pipeline does not implement the
claimed `[A-Za-z0-9_]`-based transform on every string.  On `"aé"` the first
pass keeps the Unicode word character `é`, the second pass replaces it by `_`
after collapsing and trimming already happened, so the pipeline yields `"a_"`
while the claimed transform (replace, collapse, trim, prefix) yields `"a"`. -/
theorem c6_counterexample_unicode_word_char :
    sanitize_variable_name (sanitize_name "aé") = "a_" ∧
    claimSanitize "aé" = "a" ∧
    sanitize_variable_name (sanitize_name "aé") ≠ claimSanitize "aé" :=
  ⟨by decide, by decide, by decide⟩

/-- C6 (amended): for ASCII inputs the pipeline (name sanitization followed by
variable-name sanitization) acts exactly as the claimed transform — replace
every character outside `[A-Za-z0-9_]` with `_`, collapse runs of `_`, trim
leading/trailing `_`, and prefix `_` when the nonempty result does not start
with a letter or `_` — and in particular maps `"My Tag #1"` to `"My_Tag_1"`. -/
theorem c6_sanitize_pipeline :
    (∀ s : String, (∀ c ∈ s.data, c.toNat ≤ 127) →
      sanitize_variable_name (sanitize_name s) = claimSanitize s) ∧
    sanitize_variable_name (sanitize_name "My Tag #1") = "My_Tag_1" ∧
    claimSanitize "My Tag #1" = "My_Tag_1" := by
  refine ⟨?_, by decide, by decide⟩
  intro s h
  unfold sanitize_name sanitize_variable_name claimSanitize
  have h1 : replaceNonWord s.data =
      s.data.map (fun c => if asciiWord c then c else '_') := by
    unfold replaceNonWord
    exact List.map_congr_left (fun a ha => by rw [pyIsWord_of_ascii (h a ha)])
  rw [h1]
  have h2 : ∀ (l : List Char), (⟨l⟩ : String).data = l := fun l => rfl
  rw [h2]
  have h3 : (stripUnd (collapseUnd
        (s.data.map fun c => if asciiWord c then c else '_'))).map
          (fun c => if asciiWord c then c else '_') =
      stripUnd (collapseUnd (s.data.map fun c => if asciiWord c then c else '_')) :=
    map_ascii_id (fun c hc =>
      mem_replaceAscii (mem_of_mem_collapseUnd (mem_of_mem_stripUnd hc)))
  rw [h3]

/-- C6 (witness): the amended equivalence applied at the ASCII input
`"Valve 2/On"`. -/
theorem c6_sanitize_pipeline_witness :
    sanitize_variable_name (sanitize_name "Valve 2/On") = claimSanitize "Valve 2/On" :=
  c6_sanitize_pipeline.1 "Valve 2/On" (by decide)

/-- C7 (counterexample): the struct-name transform is not idempotent — applying
`_convert_to_twincat_name` to its own output re-wraps the name instead of
returning it unchanged. -/
theorem c7_counterexample_struct_name_not_idempotent :
    convert_to_twincat_name "RW_Analog_In" = "ST_RW_AnalogIn_HMI_IgnitionExp" ∧
    convert_to_twincat_name (convert_to_twincat_name "RW_Analog_In") =
      "ST_STRWAnalogInHMIIgnitionExp_HMI_IgnitionExp" ∧
    convert_to_twincat_name (convert_to_twincat_name "RW_Analog_In") ≠
      convert_to_twincat_name "RW_Analog_In" :=
  ⟨by decide, by decide, by decide⟩

/-- C7 (amended): identifier sanitization (`_sanitize_name`) is idempotent:
its output contains only word characters, no doubled underscores and no
leading/trailing underscores, so re-applying it changes nothing.  (The
struct-name transform is not idempotent, see the counterexample.) -/
theorem c7_sanitize_name_idempotent : ∀ s : String,
    sanitize_name (sanitize_name s) = sanitize_name s := by
  intro s
  unfold sanitize_name
  have h2 : ∀ (l : List Char), (⟨l⟩ : String).data = l := fun l => rfl
  rw [h2]
  have hw : ∀ c ∈ stripUnd (collapseUnd (replaceNonWord s.data)),
      pyIsWord c = true := fun c hc =>
    mem_replaceNonWord_word (mem_of_mem_collapseUnd (mem_of_mem_stripUnd hc))
  rw [replaceNonWord_id hw]
  have hnd : noDoubleUnd (stripUnd (collapseUnd (replaceNonWord s.data))) :=
    noDoubleUnd_of_infix (stripUnd_within _) (collapseUnd_noDouble _)
  rw [collapseUnd_of_noDouble hnd, stripUnd_idem]

/-- C3: the Version Disambiguator's priority function returns 0 for names
containing a case-insensitive `test` anywhere; `1000 + n` for names ending in
the numbered-version marker `_V<n>` (case-insensitive); 100/90/80 for names
ending in the qualifier suffixes `_new`/`_reverse`/`_hybrid` (case-insensitive,
checked in that order after the preceding rules); and 50 for unqualified
names.  On the corpus `{RW_Sensor, RW_Sensor_V2, RW_Sensor_TEST}` grouping by
derived base name puts all three in one group, and selection by the highest
`(priority, name)` tuple picks `RW_Sensor_V2` (priority 1002 over 50 and 0). -/
theorem c3_version_priority :
    (∀ s : String, "test".data <:+: (pyLower s).data → get_version_priority s = 0) ∧
    (∀ (s : String) (t ds : List Char), ¬ ("test".data <:+: (pyLower s).data) →
      ds ≠ [] → (∀ c ∈ ds, c.isDigit = true) →
      (pyLower s).data = t ++ '_' :: 'v' :: ds →
      get_version_priority s = 1000 + digitsVal ds) ∧
    (∀ s : String, ¬ ("test".data <:+: (pyLower s).data) →
      (∀ (t ds : List Char), ds ≠ [] → (∀ c ∈ ds, c.isDigit = true) →
        (pyLower s).data ≠ t ++ '_' :: 'v' :: ds) →
      "_new".data <:+ (pyLower s).data → get_version_priority s = 100) ∧
    (∀ s : String, ¬ ("test".data <:+: (pyLower s).data) →
      (∀ (t ds : List Char), ds ≠ [] → (∀ c ∈ ds, c.isDigit = true) →
        (pyLower s).data ≠ t ++ '_' :: 'v' :: ds) →
      ¬ ("_new".data <:+ (pyLower s).data) →
      "_reverse".data <:+ (pyLower s).data → get_version_priority s = 90) ∧
    (∀ s : String, ¬ ("test".data <:+: (pyLower s).data) →
      (∀ (t ds : List Char), ds ≠ [] → (∀ c ∈ ds, c.isDigit = true) →
        (pyLower s).data ≠ t ++ '_' :: 'v' :: ds) →
      ¬ ("_new".data <:+ (pyLower s).data) →
      ¬ ("_reverse".data <:+ (pyLower s).data) →
      "_hybrid".data <:+ (pyLower s).data → get_version_priority s = 80) ∧
    (∀ s : String, ¬ ("test".data <:+: (pyLower s).data) →
      (∀ (t ds : List Char), ds ≠ [] → (∀ c ∈ ds, c.isDigit = true) →
        (pyLower s).data ≠ t ++ '_' :: 'v' :: ds) →
      ¬ ("_new".data <:+ (pyLower s).data) →
      ¬ ("_reverse".data <:+ (pyLower s).data) →
      ¬ ("_hybrid".data <:+ (pyLower s).data) → get_version_priority s = 50) ∧
    buildGroups ["RW_Sensor", "RW_Sensor_V2", "RW_Sensor_TEST"] =
      [("RW_Sensor", ["RW_Sensor", "RW_Sensor_V2", "RW_Sensor_TEST"])] ∧
    selectFromGroup ["RW_Sensor", "RW_Sensor_V2", "RW_Sensor_TEST"] =
      some "RW_Sensor_V2" ∧
    get_version_priority "RW_Sensor" = 50 ∧
    get_version_priority "RW_Sensor_V2" = 1002 ∧
    get_version_priority "RW_Sensor_TEST" = 0 := by
  have hnone : ∀ s : String,
      (∀ (t ds : List Char), ds ≠ [] → (∀ c ∈ ds, c.isDigit = true) →
        (pyLower s).data ≠ t ++ '_' :: 'v' :: ds) →
      vSuffixNum (pyLower s).data = none := by
    intro s hno
    cases hv : vSuffixNum (pyLower s).data with
    | none => rfl
    | some n =>
      obtain ⟨t, ds, hne, hdig, heq, _⟩ := (vSuffixNum_iff _ _).mp hv
      exact absurd heq (hno t ds hne hdig)
  refine ⟨?_, ?_, ?_, ?_, ?_, ?_, by decide, by decide, by decide, by decide, by decide⟩
  · intro s h
    simp [get_version_priority, containsStr, h]
  · intro s t ds hnt hne hdig heq
    have hv : vSuffixNum (pyLower s).data = some (digitsVal ds) :=
      (vSuffixNum_iff _ _).mpr ⟨t, ds, hne, hdig, heq, rfl⟩
    simp [get_version_priority, containsStr, hnt, hv]
  · intro s hnt hno hnew
    simp [get_version_priority, containsStr, hnt, hnone s hno, endsWithStr, hnew]
  · intro s hnt hno hnonew hrev
    simp [get_version_priority, containsStr, hnt, hnone s hno, endsWithStr,
      hnonew, hrev]
  · intro s hnt hno hnonew hnorev hhyb
    simp [get_version_priority, containsStr, hnt, hnone s hno, endsWithStr,
      hnonew, hnorev, hhyb]
  · intro s hnt hno hnonew hnorev hnohyb
    simp [get_version_priority, containsStr, hnt, hnone s hno, endsWithStr,
      hnonew, hnorev, hnohyb]

/-- C3 (witness): the numbered-version clause applied at `RW_Sensor_V2`. -/
theorem c3_version_priority_witness :
    get_version_priority "RW_Sensor_V2" = 1000 + digitsVal ['2'] :=
  c3_version_priority.2.1 "RW_Sensor_V2" "rw_sensor".data ['2'] (by decide)
    (by decide) (by decide) (by decide)

/-- C4: the should-convert decision of the field remapper is a pure function
of the node's own fields: direct-link (`opc`) nodes always convert;
computed-expression (`expr`) nodes convert exactly when they carry an
`opcItemPath` address binding; local-memory (`memory`) nodes never convert;
any other or missing mode converts exactly when an address binding is
present.  Consequently a `memory` node passes through the tag remap
unchanged. -/
theorem c4_should_convert :
    (∀ t : KTag, t.valueSource = some "opc" → should_convert_tag t = true) ∧
    (∀ t : KTag, t.valueSource = some "expr" →
      should_convert_tag t = t.opcItemPath.isSome) ∧
    (∀ t : KTag, t.valueSource = some "memory" → should_convert_tag t = false) ∧
    (∀ (t : KTag) (vs : String), t.valueSource = some vs →
      vs ∉ (["opc", "expr", "memory"] : List String) →
      should_convert_tag t = t.opcItemPath.isSome) ∧
    (∀ t : KTag, t.valueSource = none → should_convert_tag t = t.opcItemPath.isSome) ∧
    (∀ (i : Nat) (t : KTag), t.valueSource = some "memory" → convert_one_tag i t = t) := by
  refine ⟨?_, ?_, ?_, ?_, ?_, ?_⟩
  · intro t h
    simp [should_convert_tag, h]
  · intro t h
    simp [should_convert_tag, h]
  · intro t h
    simp [should_convert_tag, h]
  · intro t vs h hmem
    simp only [List.mem_cons, List.not_mem_nil, or_false, not_or] at hmem
    obtain ⟨h1, h2, h3⟩ := hmem
    simp [should_convert_tag, h, h1, h2, h3]
  · intro t h
    simp [should_convert_tag, h]
  · intro i t h
    simp [convert_one_tag, should_convert_tag, h]

/-- C4 (witness): the memory clauses applied at a concrete node carrying an
address binding. -/
theorem c4_should_convert_witness :
    should_convert_tag
      { valueSource := some "memory", opcItemPath := some (OpcVal.objV (some "x")) } =
        false ∧
    convert_one_tag 0
      { valueSource := some "memory", opcItemPath := some (OpcVal.objV (some "x")) } =
      { valueSource := some "memory", opcItemPath := some (OpcVal.objV (some "x")) } :=
  ⟨c4_should_convert.2.2.1 _ rfl, c4_should_convert.2.2.2.2.2 0 _ rfl⟩

/-- C5 (counterexample): a boolean `expr` node whose expression contains both
bit-extraction tokens but which has no `opcItemPath` is skipped entirely by
`_convert_tags` (should-convert is false), so its `valueSource` stays `expr`
and its expression field survives in the remapped output — contradicting the
claim, which asserts the conversion for every such boolean node. -/
theorem c5_counterexample_no_address_binding :
    convert_tags [c5NoPathTag] = [c5NoPathTag] ∧
    c5NoPathTag.dataType = some "Boolean" ∧
    c5NoPathTag.valueSource = some "expr" ∧
    c5NoPathTag.expression = some "x & {[.]S_HMISts}" ∧
    containsStr "x & {[.]S_HMISts}" "&" = true ∧
    containsStr "x & {[.]S_HMISts}" "{[.]S_HMISts}" = true ∧
    c5NoPathTag.opcItemPath = none :=
  ⟨by decide, rfl, rfl, rfl, by decide, by decide, rfl⟩

/-- C5 (amended): for a boolean-typed node with `valueSource = expr` that
carries an `opcItemPath` address binding, when its expression contains both
the bitwise-AND token and the `\x7b[.]S_HMISts\x7d` status reference, the tag
remap switches the node to direct-link (`opc`) and removes the expression
field. -/
theorem c5_bit_extraction_conversion :
    ∀ (i : Nat) (t : KTag) (e : String),
      t.dataType = some "Boolean" → t.valueSource = some "expr" →
      t.opcItemPath.isSome = true → t.expression = some e →
      containsStr e "&" = true → containsStr e "{[.]S_HMISts}" = true →
      (convert_one_tag i t).valueSource = some "opc" ∧
      (convert_one_tag i t).expression = none := by
  intro i t e hd hv hp he hamp hsts
  have hsc : should_convert_tag t = true := by
    simp [should_convert_tag, hv, hp]
  unfold convert_one_tag
  rw [if_pos hsc]
  generalize t.name.getD ("Tag_" ++ toString i) = nm
  obtain ⟨f1v, f1d, f1e, _⟩ := convert_opc_item_path_fields t nm
  have h1 : convStep1 t nm = convert_opc_item_path t nm := by
    simp [convStep1, hp]
  have h1v : (convStep1 t nm).valueSource = some "expr" := by
    rw [h1, f1v, hv]
  have h1d : (convStep1 t nm).dataType = some "Boolean" := by
    rw [h1, f1d, hd]
  have h1e : (convStep1 t nm).expression = some e := by
    rw [h1, f1e, he]
  have h2 : convStep2 (convStep1 t nm) =
      { convStep1 t nm with valueSource := some "opc", expression := none } := by
    unfold convStep2 convert_boolean_tag
    rw [if_pos ⟨h1d, by rw [h1e]; rfl⟩, if_pos h1v, h1e]
    simp [hamp, hsts]
  have h3 := convStep3_fields (convStep2 (convStep1 t nm))
  refine ⟨?_, ?_⟩
  · rw [h3.1, h2]
  · rw [h3.2, h2]

/-- C5 (witness): the amended conversion applied at a concrete boolean
bit-extraction tag that carries an address binding. -/
theorem c5_bit_extraction_conversion_witness :
    (convert_one_tag 0
      { name := some "Sts_Auto", dataType := some "Boolean",
        valueSource := some "expr", expression := some "x & {[.]S_HMISts}",
        opcItemPath := some (OpcVal.objV (some "ns=KEPServerEX.Dev.Tag1")) }).valueSource =
      some "opc" ∧
    (convert_one_tag 0
      { name := some "Sts_Auto", dataType := some "Boolean",
        valueSource := some "expr", expression := some "x & {[.]S_HMISts}",
        opcItemPath := some (OpcVal.objV (some "ns=KEPServerEX.Dev.Tag1")) }).expression =
      none :=
  c5_bit_extraction_conversion 0 _ "x & {[.]S_HMISts}" rfl rfl rfl rfl
    (by decide) (by decide)

/-- C2 (counterexample): the emitted declaration lines are not in one-to-one
correspondence with all non-folder pre-order nodes: a `UdtInstance` whose
`typeId` is absent from the mapping is dropped, so a tree with exactly one
non-folder node can emit zero declaration lines. -/
theorem c2_counterexample_dropped_instance :
    (extractTagsW [] [Tag.udtInstance (some "u") (some "T")] "").1.map generateTagLine =
      ([] : List String) ∧
    (preorderNodes [Tag.udtInstance (some "u") (some "T")] "").length = 1 := by
  constructor
  · simp [extractTagsW, emitNode]
  · simp [preorderNodes]

/-- C2 (amended): the extracted tag sequence equals the pre-order depth-first
traversal of the tree restricted to non-folder nodes that are actually emitted
(well-formed atomics and resolvable typed instances): folders contribute no
entry and their descendants appear contiguously, in place, with the folder
path threaded down.  In particular `Folder("A") -> [Folder("B") ->
[Atomic("x")]]` yields exactly one entry, carrying folder path `A_B`, and
exactly one declaration line. -/
theorem c2_preorder_flatten :
    (∀ (m : List (String × String)) (tags : List Tag) (pfx : String),
      (extractTagsW m tags pfx).1 =
        (preorderNodes tags pfx).filterMap (fun pt => emitNode m pt.1 pt.2)) ∧
    extractTagsW [] exampleTreeAB "" = ([exampleTagX], []) ∧
    exampleTagX.folder_path = some "A_B" ∧
    (extractTagsW [] exampleTreeAB "").1.map generateTagLine =
      ["x : BOOL := FALSE;\t\t// Folder: A/B"] := by
  refine ⟨fun m => extract_fst_eq_filterMap m, ?_, rfl, ?_⟩
  · simp [extractTagsW, exampleTreeAB, emitNode, extract_tag_info, cleanTooltip,
      sanitize_name, folderPathOf, exampleTagX]
    decide
  · simp [extractTagsW, exampleTreeAB, emitNode, extract_tag_info, cleanTooltip,
      sanitize_name, folderPathOf, generateTagLine]
    decide

/-- C8 (counterexample): the default initializer is keyed on the mapped
TwinCAT type spelling, not on whether the source type was mapped: the unmapped
source type `BOOL` passes through the table unchanged and then receives the
`:= FALSE` default, although the claim promises no initializer for unmapped
types. -/
theorem c8_counterexample_passthrough_bool :
    DATA_TYPE_MAPPING.lookup "BOOL" = none ∧
    generateTagLine { name := "t", dataType := "BOOL" } = "t : BOOL := FALSE;" :=
  ⟨by decide, by decide⟩

/-- C8 (amended): for every source type in the mapping table the emitted
default initializer is exactly the claimed literal (boolean `:= FALSE`,
floating `:= 0.0`, integer `:= 0`, text `:= ''`, timestamp the fixed epoch,
none for arrays); unmapped source types pass through unchanged and receive no
initializer unless their spelling coincides with one of the target scalar
spellings; and the declaration line is name, mapped type, default, `;`. -/
theorem c8_default_initializers :
    (∀ src ∈ DATA_TYPE_MAPPING.map Prod.fst,
      defaultSuffix (map_data_type src) = (specDefaultLiteral src).getD "") ∧
    (∀ src : String, DATA_TYPE_MAPPING.lookup src = none → map_data_type src = src) ∧
    (∀ src : String, DATA_TYPE_MAPPING.lookup src = none →
      src ∉ targetScalarSpellings → defaultSuffix (map_data_type src) = "") ∧
    (∀ tag : TagInfo, tag.isUdtReference = false → tag.readOnly = false →
      tag.folder_path = none →
      generateTagLine tag = sanitize_variable_name tag.name ++ " : " ++
        map_data_type tag.dataType ++ defaultSuffix (map_data_type tag.dataType) ++ ";") := by
  refine ⟨by decide, ?_, ?_, ?_⟩
  · intro src h
    simp [map_data_type, h]
  · intro src hlk hmem
    have hmap : map_data_type src = src := by simp [map_data_type, hlk]
    rw [hmap]
    simp only [targetScalarSpellings, List.mem_cons, List.not_mem_nil, or_false,
      not_or] at hmem
    obtain ⟨h1, h2, h3, h4, h5, h6, h7, h8, h9, h10, h11, h12, h13, h14, h15,
      h16, h17, h18⟩ := hmem
    simp [defaultSuffix, h1, h2, h3, h4, h5, h6, h7, h8, h9, h10, h11, h12,
      h13, h14, h15, h16, h17, h18]
  · intro tag h1 h2 h3
    simp [generateTagLine, h1, h2, h3]

/-- C8 (witness): the amended characterization applied at the mapped type
`Float`, the unmapped non-colliding type `Foo`, and a concrete atomic tag. -/
theorem c8_default_initializers_witness :
    defaultSuffix (map_data_type "Float") = (specDefaultLiteral "Float").getD "" ∧
    map_data_type "Foo" = "Foo" ∧
    defaultSuffix (map_data_type "Foo") = "" ∧
    generateTagLine { name := "spd", dataType := "Float" } =
      sanitize_variable_name "spd" ++ " : " ++ map_data_type "Float" ++
        defaultSuffix (map_data_type "Float") ++ ";" :=
  ⟨c8_default_initializers.1 "Float" (by decide),
   c8_default_initializers.2.1 "Foo" (by decide),
   c8_default_initializers.2.2.1 "Foo" (by decide) (by decide),
   c8_default_initializers.2.2.2 { name := "spd", dataType := "Float" } rfl rfl rfl⟩

/-- C9 (counterexample): an atomic node with a missing `name` is dropped
silently — `_extract_tag_info` returns `None` and the extraction loop records
no warning — although the claim says the drop comes with a warning. -/
theorem c9_counterexample_silent_atomic_drop :
    extractTagsW [] [Tag.atomicTag none (some "Boolean") none false] "" = ([], []) := by
  simp [extractTagsW, emitNode, extract_tag_info, nodeWarnings]

/-- C9 (amended): node-level problems are recoverable and never abort a
record's conversion: an atomic node missing (or with empty) `name` or
`dataType` is dropped silently — with no warning — and the remaining nodes
are processed unchanged; a `UdtInstance` whose `typeId` is not in the mapping
is dropped from emission with exactly one warning while the rest still emits;
an unmapped primitive type passes through unchanged with the warning flag
set. -/
theorem c9_node_recoverable :
    (∀ (m : List (String × String)) (rest : List Tag) (pfx : String)
        (nm dt : Option String) (tt : Option TooltipVal) (ro : Bool),
      nm.getD "" = "" ∨ dt.getD "" = "" →
      extractTagsW m (Tag.atomicTag nm dt tt ro :: rest) pfx =
        extractTagsW m rest pfx) ∧
    (∀ (m : List (String × String)) (rest : List Tag) (pfx : String)
        (nm tid : Option String),
      m.lookup (tid.getD "") = none →
      (extractTagsW m (Tag.udtInstance nm tid :: rest) pfx).1 =
        (extractTagsW m rest pfx).1 ∧
      (extractTagsW m (Tag.udtInstance nm tid :: rest) pfx).2 =
        ("Warning: Unknown UDT type '" ++ tid.getD "" ++ "' for instance '" ++
          nm.getD "Unknown" ++ "'") :: (extractTagsW m rest pfx).2) ∧
    (∀ ty : String, DATA_TYPE_MAPPING.lookup ty = none →
      map_data_type ty = ty ∧ map_data_type_warning ty = true) := by
  refine ⟨?_, ?_, ?_⟩
  · intro m rest pfx nm dt tt ro h
    have hinfo : extract_tag_info nm dt tt ro = none := by
      cases nm with
      | none => rfl
      | some n =>
        cases dt with
        | none => rfl
        | some d =>
          rcases h with h | h
          · simp only [Option.getD_some] at h
            simp [extract_tag_info, h]
          · simp only [Option.getD_some] at h
            simp [extract_tag_info, h]
    simp [extractTagsW, emitNode, nodeWarnings, hinfo]
  · intro m rest pfx nm tid h
    constructor
    · simp [extractTagsW, emitNode, h]
    · simp [extractTagsW, emitNode, nodeWarnings, h]
  · intro ty h
    exact ⟨by simp [map_data_type, h],
      by simp [map_data_type_warning, map_data_type, h]⟩

/-- C9 (witness): the three recoverable behaviours at concrete inputs: an
empty-named atomic drops with the rest untouched, an unresolvable instance
yields exactly its one warning, and the unmapped type `Foo` passes through
with the warning flag. -/
theorem c9_node_recoverable_witness :
    extractTagsW [] [Tag.atomicTag (some "") (some "Boolean") none false] "" =
      extractTagsW [] [] "" ∧
    (extractTagsW [("Redwood/A", "ST_A")]
        [Tag.udtInstance (some "u") (some "T")] "").2 =
      ["Warning: Unknown UDT type 'T' for instance 'u'"] ∧
    map_data_type "Foo" = "Foo" ∧ map_data_type_warning "Foo" = true := by
  refine ⟨c9_node_recoverable.1 [] [] "" (some "") (some "Boolean") none false
      (Or.inl rfl), ?_, (c9_node_recoverable.2.2 "Foo" (by decide)).1,
      (c9_node_recoverable.2.2 "Foo" (by decide)).2⟩
  have h := (c9_node_recoverable.2.1 [("Redwood/A", "ST_A")] [] ""
    (some "u") (some "T") (by decide)).2
  rw [h]
  simp [extractTagsW]

/-! ## Helper lemmas: parameter map (C10) -/

theorem lookup_dictInsert_self (k : String) (v : ParamVal) :
    ∀ l : List (String × ParamVal), (dictInsert k v l).lookup k = some v := by
  intro l
  induction l with
  | nil => simp [dictInsert, List.lookup]
  | cons kv rest ih =>
    obtain ⟨k2, v2⟩ := kv
    by_cases h : k2 = k
    · simp [dictInsert, h, List.lookup]
    · have hb : (k == k2) = false := by simpa using Ne.symm h
      simp [dictInsert, h, List.lookup, hb, ih]

theorem lookup_dictInsert_ne (k k2 : String) (hne : k2 ≠ k) (v : ParamVal) :
    ∀ l : List (String × ParamVal),
      (dictInsert k v l).lookup k2 = l.lookup k2 := by
  intro l
  induction l with
  | nil =>
    have hb : (k2 == k) = false := by simpa using hne
    simp [dictInsert, List.lookup, hb]
  | cons kv rest ih =>
    obtain ⟨k3, v3⟩ := kv
    by_cases h : k3 = k
    · subst h
      have hb : (k2 == k3) = false := by simpa using hne
      simp [dictInsert, List.lookup, hb]
    · by_cases h2 : k2 = k3
      · have hb : (k2 == k3) = true := by simpa using h2
        simp [dictInsert, h, List.lookup, hb]
      · have hb : (k2 == k3) = false := by simpa using h2
        simp [dictInsert, h, List.lookup, hb, ih]

theorem mem_of_lookup_some :
    ∀ {l : List (String × ParamVal)} {k : String} {v : ParamVal},
      l.lookup k = some v → (k, v) ∈ l := by
  intro l
  induction l with
  | nil => intro k v h; simp [List.lookup] at h
  | cons kv rest ih =>
    intro k v h
    obtain ⟨k2, v2⟩ := kv
    by_cases he : k = k2
    · subst he
      simp only [List.lookup, beq_self_eq_true] at h
      injection h with h
      rw [← h]
      exact List.mem_cons_self _ _
    · have hb : (k == k2) = false := by simpa using he
      simp only [List.lookup, hb] at h
      exact List.mem_cons_of_mem _ (ih h)

theorem keys_ne_of_lookup_none :
    ∀ {l : List (String × ParamVal)} {k : String},
      l.lookup k = none → ∀ p ∈ l, p.1 ≠ k := by
  intro l
  induction l with
  | nil => intro k _ p hp; simp at hp
  | cons kv rest ih =>
    intro k h p hp
    obtain ⟨k2, v2⟩ := kv
    by_cases he : k = k2
    · subst he
      simp only [List.lookup, beq_self_eq_true] at h
      exact absurd h (by simp)
    · have hb : (k == k2) = false := by simpa using he
      simp only [List.lookup, hb] at h
      rcases List.mem_cons.mp hp with rfl | hp2
      · simpa using Ne.symm he
      · exact ih h p hp2

theorem convParams_fold_not_mem (k : String) :
    ∀ (params acc : List (String × ParamVal)),
      (∀ p ∈ params, p.1 ≠ k) →
      (params.foldl
        (fun acc kv =>
          if kv.1 ∈ kepware_params then acc else dictInsert kv.1 kv.2 acc)
        acc).lookup k = acc.lookup k := by
  intro params
  induction params with
  | nil => intro acc _; rfl
  | cons kv rest ih =>
    intro acc h
    rw [List.foldl_cons]
    by_cases hk : kv.1 ∈ kepware_params
    · rw [if_pos hk]
      exact ih acc (fun p hp => h p (List.mem_cons_of_mem _ hp))
    · rw [if_neg hk]
      rw [ih _ (fun p hp => h p (List.mem_cons_of_mem _ hp))]
      exact lookup_dictInsert_ne kv.1 k
        (Ne.symm (h kv (List.mem_cons_self _ _))) kv.2 acc

theorem convParams_fold_mem (k : String) (v : ParamVal) :
    ∀ (params acc : List (String × ParamVal)),
      (params.map Prod.fst).Nodup → (k, v) ∈ params → k ∉ kepware_params →
      (params.foldl
        (fun acc kv =>
          if kv.1 ∈ kepware_params then acc else dictInsert kv.1 kv.2 acc)
        acc).lookup k = some v := by
  intro params
  induction params with
  | nil => intro acc _ hmem _; simp at hmem
  | cons kv rest ih =>
    intro acc hnd hmem hk
    rw [List.foldl_cons]
    rcases List.mem_cons.mp hmem with heq | hrest
    · rw [← heq]
      rw [← heq] at hnd
      rw [if_neg hk]
      have hnotin : ∀ p ∈ rest, p.1 ≠ k := by
        intro p hp hpk
        rw [List.map_cons, List.nodup_cons] at hnd
        have hmem2 : p.1 ∈ rest.map Prod.fst := List.mem_map_of_mem Prod.fst hp
        rw [hpk] at hmem2
        exact hnd.1 hmem2
      rw [convParams_fold_not_mem k rest _ hnotin]
      exact lookup_dictInsert_self k v acc
    · have hne : kv.1 ≠ k := by
        intro hkk
        rw [List.map_cons, List.nodup_cons] at hnd
        have hmem2 : k ∈ rest.map Prod.fst := List.mem_map_of_mem Prod.fst hrest
        rw [← hkk] at hmem2
        exact hnd.1 hmem2
      have hndr : (rest.map Prod.fst).Nodup := by
        rw [List.map_cons, List.nodup_cons] at hnd
        exact hnd.2
      by_cases hkw : kv.1 ∈ kepware_params
      · rw [if_pos hkw]
        exact ih acc hndr hrest hk
      · rw [if_neg hkw]
        exact ih _ hndr hrest hk

theorem convParams_fold_kepware (k : String) (hk : k ∈ kepware_params) :
    ∀ (params acc : List (String × ParamVal)),
      acc.lookup k = none →
      (params.foldl
        (fun acc kv =>
          if kv.1 ∈ kepware_params then acc else dictInsert kv.1 kv.2 acc)
        acc).lookup k = none := by
  intro params
  induction params with
  | nil => intro acc h; exact h
  | cons kv rest ih =>
    intro acc h
    rw [List.foldl_cons]
    by_cases hkw : kv.1 ∈ kepware_params
    · rw [if_pos hkw]
      exact ih acc h
    · rw [if_neg hkw]
      refine ih _ ?_
      rw [lookup_dictInsert_ne kv.1 k ?_ kv.2 acc]
      · exact h
      · intro hkk
        exact hkw (hkk ▸ hk)

/-- C10: `_convert_parameters` inserts the two template parameters
`OPCTagPath`/`OPCServer` before copying the retained input parameters, so a
same-named input parameter (neither name is in the exclusion set) overwrites
the injected template value with the input's value; when the input has no
such parameter both templates survive; every non-excluded input parameter is
preserved unchanged, and the excluded KEPware parameters never appear. -/
theorem c10_parameter_remap :
    (∀ (params : List (String × ParamVal)) (k : String) (v : ParamVal),
      (params.map Prod.fst).Nodup → params.lookup k = some v →
      k ∉ kepware_params → (convert_parameters params).lookup k = some v) ∧
    (∀ params : List (String × ParamVal), params.lookup "OPCTagPath" = none →
      (convert_parameters params).lookup "OPCTagPath" = some tmplOPCTagPath) ∧
    (∀ params : List (String × ParamVal), params.lookup "OPCServer" = none →
      (convert_parameters params).lookup "OPCServer" = some tmplOPCServer) ∧
    (∀ (params : List (String × ParamVal)) (k : String), k ∈ kepware_params →
      (convert_parameters params).lookup k = none) ∧
    "OPCTagPath" ∉ kepware_params ∧ "OPCServer" ∉ kepware_params := by
  refine ⟨?_, ?_, ?_, ?_, by decide, by decide⟩
  · intro params k v hnd hlk hk
    exact convParams_fold_mem k v params _ hnd (mem_of_lookup_some hlk) hk
  · intro params h
    rw [convert_parameters, convParams_fold_not_mem _ params _
      (keys_ne_of_lookup_none h)]
    rfl
  · intro params h
    rw [convert_parameters, convParams_fold_not_mem _ params _
      (keys_ne_of_lookup_none h)]
    rfl
  · intro params k hk
    refine convParams_fold_kepware k hk params _ ?_
    simp only [kepware_params, List.mem_cons, List.not_mem_nil, or_false] at hk
    rcases hk with rfl | rfl | rfl <;> rfl

/-- C10 (witness): the overwrite, injection, preservation and exclusion
behaviours at concrete parameter maps. -/
theorem c10_parameter_remap_witness :
    (convert_parameters
        [("OPCTagPath", { dataType := "String", value := "keepMe" }),
         ("Node", { dataType := "String", value := "n1" })]).lookup "OPCTagPath" =
      some { dataType := "String", value := "keepMe" } ∧
    (convert_parameters
        [("Node", { dataType := "String", value := "n1" })]).lookup "OPCTagPath" =
      some tmplOPCTagPath ∧
    (convert_parameters
        [("Node", { dataType := "String", value := "n1" })]).lookup "Node" = none :=
  ⟨c10_parameter_remap.1 _ "OPCTagPath" _ (by decide) (by decide) (by decide),
   c10_parameter_remap.2.1 _ (by decide),
   c10_parameter_remap.2.2.2.1 _ "Node" (by decide)⟩
